import Mathlib

/-!
# Jet-Factory: a shallow embedding of `factory.go`

The Go program keeps its run state in package-level variables and drives a
linear build pipeline through helper functions (`SpawnContainer`, `WalkURL`,
`CliSelector`, ...) that live in other files of the package.  The embedding

* keeps the package-level variables in a `State` record that is threaded
  through every function,
* records every call to a collaborator in `State.calls`, in program order,
* takes the collaborators' answers from an `Env` record whose fields may
  depend on the calls made so far,
* models a Go run-time panic (index out of range, nil dereference) by
  `Res.panic`.

Go strings are Lean strings; the functions of package `strings` used by the
source are defined on the character lists.
-/

set_option autoImplicit false

namespace JetFactory

/-! ## Go values -/

/-- The Go type `error`: `none` is `nil`. -/
abbrev GoError := Option String

/-- The type `Variant` of the source. -/
structure Variant where
  Name : String
  Pre : List String
  Post : List String
  Packages : List String
  deriving DecidableEq, Repr

/-- The type `Distribution` of the source; the Go map `Architectures` is an
association list, read with `List.lookup`. -/
structure Distribution where
  Name : String
  Pre : List String
  Post : List String
  Packages : List String
  Architectures : List (String × List String)
  Variants : List Variant
  deriving DecidableEq, Repr

/-- The zero value of `Distribution`. -/
def Distribution.zero : Distribution :=
  { Name := "", Pre := [], Post := [], Packages := [], Architectures := [], Variants := [] }

/-- The zero value of `Variant`. -/
def Variant.zero : Variant :=
  { Name := "", Pre := [], Post := [], Packages := [] }

/-! ## Package `strings` -/

/-- Characters for which Go's `unicode.IsSpace` holds. -/
def isSpace (c : Char) : Bool :=
  let n := c.toNat
  n == 0x20 || (0x09 ≤ n && n ≤ 0x0d) || n == 0x85 || n == 0xa0 || n == 0x1680 ||
  (0x2000 ≤ n && n ≤ 0x200a) || n == 0x2028 || n == 0x2029 || n == 0x202f ||
  n == 0x205f || n == 0x3000

/-- Whether `sub` occurs in the character list. -/
def containsChars (sub : List Char) : List Char → Bool
  | [] => sub.isPrefixOf []
  | c :: cs => sub.isPrefixOf (c :: cs) || containsChars sub cs

/-- The function `strings.Contains`. -/
def Contains (s substr : String) : Bool := containsChars substr.data s.data

/-- Worker of `Split`: the pieces of the list between the occurrences of the
(non-empty) separator, scanning left to right; `skip` counts the characters of
the separator occurrence still to be dropped. -/
def splitChars (sep : List Char) : List Char → Nat → List (List Char)
  | [], _ => [[]]
  | _ :: cs, skip + 1 => splitChars sep cs skip
  | c :: cs, 0 =>
    if sep.isPrefixOf (c :: cs) then [] :: splitChars sep cs (sep.length - 1)
    else
      match splitChars sep cs 0 with
      | [] => [[c]]
      | t :: ts => (c :: t) :: ts

/-- The function `strings.Split` for a non-empty separator (the source only
splits on `" "`, `"/"` and `"/{VERSION}"`). -/
def Split (s sep : String) : List String :=
  (splitChars sep.data s.data 0).map String.mk

/-- Worker of `Replace`: `budget = none` replaces every occurrence. -/
def replaceChars (old new : List Char) : List Char → Nat → Option Nat → List Char
  | [], _, _ => []
  | _ :: cs, skip + 1, budget => replaceChars old new cs skip budget
  | c :: cs, 0, some 0 => c :: cs
  | c :: cs, 0, budget =>
    if old.isPrefixOf (c :: cs) then
      new ++ replaceChars old new cs (old.length - 1) (budget.map (· - 1))
    else c :: replaceChars old new cs 0 budget

/-- The function `strings.Replace` for a non-empty `old`; a negative `n` puts
no limit on the number of replacements. -/
def Replace (s old new : String) (n : Int) : String :=
  String.mk (replaceChars old.data new.data s.data 0 (if n < 0 then none else some n.toNat))

/-- The function `strings.TrimSpace`. -/
def TrimSpace (s : String) : String :=
  String.mk ((s.data.dropWhile isSpace).reverse.dropWhile isSpace).reverse

/-- Worker of `LastIndex`: the last position at which `sub` starts, counting
from `i`. -/
def lastIndexChars (sub : List Char) : List Char → Nat → Option Nat
  | [], i => if sub.isPrefixOf [] then some i else none
  | c :: cs, i =>
    match lastIndexChars sub cs (i + 1) with
    | some j => some j
    | none => if sub.isPrefixOf (c :: cs) then some i else none

/-- The function `strings.LastIndex`; `-1` when there is no occurrence.
Positions are counted in characters, and so are the slices taken with them. -/
def LastIndex (s substr : String) : Int :=
  match lastIndexChars substr.data s.data 0 with
  | some j => (j : Int)
  | none => -1

/-! ## The staged tree seen by `filepath.Walk` -/

/-- A directory tree as `Lstat` and `ReadDir` report it.  An entry is
* a `file`: `Lstat` succeeds and the entry is neither a directory nor a
  symbolic link;
* a `link`: a symbolic link, with the path of the entry that the operating
  system resolves it to (`none` when it dangles);
* a `dir`: a directory, with the error of `ReadDir` when reading it fails, and
  its entries;
* `broken`: a name that `ReadDir` lists and on which `Lstat` fails. -/
inductive Node where
  | file (name : String)
  | link (name : String) (target : Option String)
  | dir (name : String) (readErr : GoError) (children : List Node)
  | broken (name : String) (err : String)
  deriving Repr

/-- The error values a `filepath.WalkFunc` may return besides `nil`. -/
inductive WalkErr where
  | SkipDir
  | other (msg : String)
  deriving DecidableEq, Repr

/-! ## Calls to collaborators -/

/-- One call to a function outside `factory.go` that acts on the outside
world, with its arguments. -/
inductive Call where
  | CliSelector (label : String) (options : List String)
  | WalkURL (url : String)
  | DownloadFile (url dst : String)
  | ExtractFiles (archive dst : String)
  | CopyFromDisk (src dst : String)
  | CopyToDisk (img dst : String)
  | Copy (src dst : String)
  | CopyDirectory (src dst : String)
  | SplitFile (file dst : String) (size : Nat)
  | Archive (sources : List String) (dst : String)
  | CreateDisk (src dst name fs : String)
  | SpawnContainer (argv : List String)
  | SpawnContainerFull (env : List String) (noCache : Bool)
  | BinfmtSupport
  | PreChroot (path : String)
  | RemoveAll (path : String)
  | Remove (path : String)
  | MkdirAll (path : String) (mode : Nat)
  | Chmod (path : String) (mode : Nat)
  | WriteFile (path : String) (content : String) (mode : Nat)
  | Println (msg : String)
  deriving DecidableEq, Repr

/-- The outside world.  Every answer may depend on the calls made before it. -/
structure Env where
  /-- The error returned by a collaborator call that returns (at most) an error. -/
  fails : List Call → Call → GoError
  /-- Answers of `Exists`. -/
  Exists : List Call → String → Bool
  /-- Answers of `CliSelector`. -/
  CliSelector : List Call → String → List String → String × GoError
  /-- Answers of `WalkURL`; `none` is the nil pointer. -/
  WalkURL : List Call → String → Option String
  /-- The method `FindAllStringSubmatch` of package `regexp`, as a function of
  the pattern and the text; no match is the empty list. -/
  FindAllStringSubmatch : String → String → List (List String)
  /-- Whether `os.Stat` fails with an error for which `os.IsNotExist` holds. -/
  StatIsNotExist : List Call → String → Bool
  /-- Answers of `ioutil.ReadFile`. -/
  ReadFile : List Call → String → String × GoError
  /-- The tree found at a path by `filepath.Walk`, or the error of `os.Lstat`. -/
  Lstat : List Call → String → Except String Node

/-! ## Run state -/

/-- The package-level variables of the source, and the calls made so far. -/
structure State where
  basesDistro : List Distribution
  distribution : Distribution
  variant : Variant
  buildarch : String
  dockerImageName : String
  isVariant : Bool
  isAndroid : Bool
  hekate : Bool
  staging : Bool
  skip : Bool
  force : Bool
  calls : List Call
  deriving Repr

/-- The state at the start of `main`, for a catalog and the parsed flags. -/
def State.init (catalog : List Distribution) (archi : String) (hekate staging skip force : Bool) :
    State :=
  { basesDistro := catalog, distribution := Distribution.zero, variant := Variant.zero,
    buildarch := archi, dockerImageName := "", isVariant := false, isAndroid := false,
    hekate := hekate, staging := staging, skip := skip, force := force, calls := [] }

/-- The constant `managerList`. -/
def managerList : List String := ["zypper", "dnf", "yum", "pacman", "apt"]

/-- The constant `hekateVersion`. -/
def hekateVersion : String := "5.2.0"

/-- The constant `nyxVersion`. -/
def nyxVersion : String := "0.9.0"

/-- The constant `hekateBin`. -/
def hekateBin : String := "hekate_ctcaer_" ++ hekateVersion ++ ".bin"

/-- The constant `hekateURL`. -/
def hekateURL : String :=
  "https://github.com/CTCaer/hekate/releases/download/v" ++ hekateVersion ++ "/hekate_ctcaer_" ++
    hekateVersion ++ "_Nyx_" ++ nyxVersion ++ ".zip"

/-- The constant `hekateZip`: `hekateURL` after its last `/`. -/
def hekateZip : String :=
  String.mk (hekateURL.data.drop (LastIndex hekateURL "/" + 1).toNat)

/-! ## Results and sequencing -/

/-- The outcome of running a function: it returns a value, or the Go run-time
panics; either way the state reached is kept. -/
inductive Res (α : Type) where
  | ok (val : α) (s : State)
  | panic (msg : String) (s : State)
  deriving Repr

/-- The state reached. -/
def Res.state {α : Type} : Res α → State
  | .ok _ s => s
  | .panic _ s => s

/-- The value returned, if the run did not panic. -/
def Res.val? {α : Type} : Res α → Option α
  | .ok a _ => some a
  | .panic _ _ => none

/-- A function of the source: from the state before to the outcome. -/
def M (α : Type) : Type := State → Res α

/-- Run the second computation on the result of the first. -/
def M.bind {α β : Type} (m : M α) (f : α → M β) : M β := fun s =>
  match m s with
  | .ok a s1 => f a s1
  | .panic msg s1 => .panic msg s1

instance : Monad M where
  pure a := fun s => .ok a s
  bind := M.bind

/-- Read the package-level variables. -/
def getState : M State := fun s => .ok s s

/-- Write the package-level variables. -/
def modifyState (f : State → State) : M Unit := fun s => .ok () (f s)

/-- A run-time panic. -/
def goPanic {α : Type} (msg : String) : M α := fun s => .panic msg s

/-- Record a call. -/
def record (c : Call) : M Unit := fun s => .ok () { s with calls := s.calls ++ [c] }

/-- Make a collaborator call that returns an error or nil. -/
def invoke (env : Env) (c : Call) : M GoError := fun s =>
  .ok (env.fails s.calls c) { s with calls := s.calls ++ [c] }

/-! ## `DetectPackageManager` -/

/-- The loop of `DetectPackageManager` over the managers still to be tried;
`packageManager` is the variable of that name. -/
def DetectPackageManager.loop (exist : String → Bool) (rootfs : String) :
    List String → List String → List String × GoError
  | [], packageManager => (packageManager, none)
  | man :: rest, packageManager =>
    if exist (rootfs ++ "/usr/bin/" ++ man) then
      if man = "zypper" ∨ man = "dnf" ∨ man = "yum" ∨ man = "apt" then
        DetectPackageManager.loop exist rootfs rest [man, "install", "-y"]
      else if man = "pacman" then
        DetectPackageManager.loop exist rootfs rest [man, "-Syu", "--noconfirm"]
      else
        ([], some "Couldn't detect package manager")
    else DetectPackageManager.loop exist rootfs rest packageManager

/-- The function `DetectPackageManager`; `exist` answers `Exists`. -/
def DetectPackageManager (exist : String → Bool) (rootfs : String) : List String × GoError :=
  DetectPackageManager.loop exist rootfs managerList []

/-! ## `SetDistro` and `IsValidArchitecture` -/

/-- The inner loop of `SetDistro`: the first variant of the list with the
requested name. -/
def SetDistro.findVariant (name : String) : List Variant → Option Variant
  | [] => none
  | v :: vs => if name = v.Name then some v else SetDistro.findVariant name vs

/-- The outer loop of `SetDistro` over the catalog entries still to be
visited. -/
def SetDistro.loop (name : String) : List Distribution → State → State × GoError
  | [], s => (s, none)
  | d :: rest, s =>
    if name = d.Name then
      ({ s with distribution :=
          { Name := d.Name, Architectures := d.Architectures, Pre := d.Pre, Post := d.Post,
            Packages := d.Packages, Variants := [] } }, none)
    else
      match SetDistro.findVariant name d.Variants with
      | some v =>
        ({ s with isVariant := true,
                  variant := { Name := v.Name, Packages := v.Packages, Pre := v.Pre, Post := v.Post } },
          none)
      | none => SetDistro.loop name rest s

/-- The function `SetDistro`. -/
def SetDistro (name : String) (s : State) : State × GoError :=
  SetDistro.loop name s.basesDistro s

/-- The function `IsValidArchitecture`: `some buildarch` is the pointer to
`buildarch`, `none` the nil pointer. -/
def IsValidArchitecture (s : State) : Option String :=
  if (s.distribution.Architectures.map Prod.fst).contains s.buildarch then some s.buildarch
  else none

/-! ## Collaborators that return a value -/

/-- A call of `CliSelector`. -/
def CliSelector (env : Env) (label : String) (options : List String) : M (String × GoError) :=
  fun s =>
    .ok (env.CliSelector s.calls label options)
      { s with calls := s.calls ++ [.CliSelector label options] }

/-- A call of `WalkURL`. -/
def WalkURL (env : Env) (url : String) : M (Option String) := fun s =>
  .ok (env.WalkURL s.calls url) { s with calls := s.calls ++ [.WalkURL url] }

/-- The idiom `if err := f(); err != nil { return err }` followed by the rest
of the function. -/
def orReturn (m : M GoError) (rest : M GoError) : M GoError := do
  let err ← m
  if err.isSome then pure err else rest

/-- The idiom `if err := f(); err != nil { log.Println(err); return err }`
followed by the rest of the function. -/
def orLogReturn (m : M GoError) (rest : M GoError) : M GoError := do
  let err ← m
  match err with
  | some e => do
    record (.Println e)
    pure err
  | none => rest

/-! ## `SelectDistro` and `SelectVersion` -/

/-- The loops of `SelectDistro` that collect the selectable names. -/
def SelectDistro.avalaibles : List Distribution → List String
  | [] => []
  | baseDistro :: rest =>
    baseDistro.Variants.map (·.Name) ++ [baseDistro.Name] ++ SelectDistro.avalaibles rest

/-- The function `SelectDistro`: the selected name (a pointer in the source)
and the error. -/
def SelectDistro (env : Env) : M (Option String × GoError) := do
  let s ← getState
  let (name, err) ← CliSelector env "" (SelectDistro.avalaibles s.basesDistro)
  if err.isSome then pure (none, err) else pure (some name, none)

/-- The pattern with which `SelectVersion` reads the versions off a listing. -/
def versionPattern : String := ">:?([[:digit:]]{1,3}.[[:digit:]]+|[[:digit:]]+)(?:/)"

/-- The pattern with which `SelectVersion` reads the image files off a listing. -/
def imagePattern : String := ">:?([[:alpha:]]+.*.raw.xz)"

/-- The inner loop `for _, submatches := range match`, appending
`submatches[1]` to the candidates; `none` when the index is out of range. -/
def submatchLoop.inner : List (List String) → List String → Option (List String)
  | [], acc => some acc
  | (_ :: x :: _) :: rest, acc => submatchLoop.inner rest (acc ++ [x])
  | _ :: _, _ => none

/-- The outer loop `for i := 0; i < len(match); i++` around the inner loop;
the first argument counts the iterations left. -/
def submatchLoop : Nat → List (List String) → List String → Option (List String)
  | 0, _, acc => some acc
  | i + 1, m, acc =>
    match submatchLoop.inner m acc with
    | some acc1 => submatchLoop i m acc1
    | none => none

/-- The part of `SelectVersion` after the version has been chosen: the image
listing is read at `constructedURL`; `err` is the variable of that name, nil
at this point. -/
def SelectVersion.image (env : Env) (constructedURL : String) (err : GoError) :
    M (String × GoError) := do
  let imageBody ← WalkURL env constructedURL
  match imageBody with
  | none => goPanic "invalid memory address or nil pointer dereference"
  | some body =>
    let imageMatch := env.FindAllStringSubmatch imagePattern body
    match submatchLoop imageMatch.length imageMatch [] with
    | none => goPanic "index out of range"
    | some images =>
      if images.length > 1 then do
        let (imageFile, err) ← CliSelector env "Select an image file: " images
        if err.isSome then pure ("", err)
        else pure (TrimSpace (constructedURL ++ imageFile), none)
      else
        match images with
        | [imageFile] => pure (TrimSpace (constructedURL ++ imageFile), none)
        | _ => pure ("", err)

/-- The function `SelectVersion`. -/
def SelectVersion (env : Env) : M (String × GoError) := do
  let s ← getState
  match (s.distribution.Architectures.lookup s.buildarch).getD [] with
  | [] => pure ("", none)
  | avalaibleMirror :: _ =>
    if Contains avalaibleMirror "{VERSION}" then
      match Split avalaibleMirror "/{VERSION}" with
      | [] => goPanic "index out of range"
      | constructedURL :: _ => do
        let versionBody ← WalkURL env constructedURL
        match versionBody with
        | none => goPanic "invalid memory address or nil pointer dereference"
        | some body =>
          let matched := env.FindAllStringSubmatch versionPattern body
          if matched.isEmpty then pure ("", some "Couldn't find any match for regex")
          else
            match submatchLoop matched.length matched [] with
            | none => goPanic "index out of range"
            | some versions => do
              let (version, err) ← CliSelector env "Select a version: " versions
              if err.isSome then pure ("", err)
              else SelectVersion.image env (Replace avalaibleMirror "{VERSION}" version 1) err
    else pure (avalaibleMirror, none)

/-! ## `PrepareFiles` -/

/-- Modelled from the spec: `RetryFunction` is defined in another file of the
package; it runs the closure up to `attempts` times, stops at the first
success and otherwise reports the last failure. -/
def RetryFunction : Nat → M GoError → M GoError
  | 0, _ => pure none
  | 1, f => f
  | n + 2, f => do
    let err ← f
    if err.isSome then RetryFunction (n + 1) f else pure none

/-- The function `DownloadURLfromTags`. -/
def DownloadURLfromTags (env : Env) (srcURL dst : String) : M GoError :=
  RetryFunction 5 (invoke env (.DownloadFile srcURL dst))

/-- The end of `PrepareFiles`, from the extraction of the downloaded image. -/
def PrepareFiles.extract (env : Env) (basePath dlDir image : String) : M GoError :=
  orReturn (invoke env (.ExtractFiles (dlDir ++ image) dlDir)) <|
    if Contains (dlDir ++ image) ".xz" then
      if LastIndex image "." < 0 then goPanic "slice bounds out of range"
      else
        let image1 := String.mk (image.data.take (LastIndex image ".").toNat)
        orReturn (invoke env (.CopyFromDisk (dlDir ++ image1) basePath)) <|
        orReturn (invoke env (.Remove (dlDir ++ image1))) <|
        pure none
    else pure none

/-- The function `PrepareFiles`. -/
def PrepareFiles (env : Env) (basePath dlDir : String) : M GoError := do
  let _ ← invoke env (.RemoveAll basePath)
  orReturn (invoke env (.MkdirAll basePath 0o755)) <|
  orReturn (invoke env (.MkdirAll dlDir 0o755)) <| do
  let s ← getState
  if !s.skip then do
    let (srcURL, err) ← SelectVersion env
    if err.isSome then pure err
    else
      match (Split srcURL "/").getLast? with
      | none => goPanic "index out of range"
      | some image =>
        orReturn (do
          let s1 ← getState
          if env.StatIsNotExist s1.calls (dlDir ++ image) || s1.force == true then
            DownloadURLfromTags env srcURL dlDir
          else pure none) <|
        orReturn (
          if s.hekate then
            orReturn (invoke env (.DownloadFile hekateURL (dlDir ++ hekateZip))) <|
            invoke env (.ExtractFiles (dlDir ++ hekateZip) dlDir)
          else pure none) <|
        PrepareFiles.extract env basePath dlDir image
  else pure none

/-! ## Package installation and hooks -/

/-- A call of `SpawnContainer` with the given argument vector (its second
argument is nil at every call of the source). -/
def SpawnContainer (env : Env) (argv : List String) : M GoError :=
  invoke env (.SpawnContainer argv)

/-- The loops of `InstallPackagesInChrootEnv` over a package list: one
invocation per package; indexing the descriptor panics when it is too short. -/
def InstallPackagesInChrootEnv.loop (env : Env) (path : String) (packageManager : List String) :
    List String → M GoError
  | [] => pure none
  | pkg :: rest =>
    match packageManager with
    | p0 :: p1 :: p2 :: _ =>
      orReturn (SpawnContainer env ["arch-chroot", path, p0, p1, p2, pkg])
        (InstallPackagesInChrootEnv.loop env path packageManager rest)
    | _ => goPanic "index out of range"

/-- The bootstrap of `InstallPackagesInChrootEnv` for the distribution named
`arch`. -/
def InstallPackagesInChrootEnv.arch (env : Env) (path : String) (rest : M GoError) : M GoError :=
  orReturn (SpawnContainer env ["arch-chroot", path, "pacman-key", "--init"]) <|
  orReturn (SpawnContainer env ["arch-chroot", path, "pacman-key", "--populate", "archlinuxarm"]) <| do
  let s ← getState
  let (read, err) := env.ReadFile s.calls (path ++ "/etc/pacman.conf")
  if err.isSome then pure err
  else
    let newContents := Replace read "CheckSpace" "#CheckSpace" (-1)
    orReturn (invoke env (.WriteFile (path ++ "/etc/pacman.conf") newContents 0)) rest

/-- The function `InstallPackagesInChrootEnv`. -/
def InstallPackagesInChrootEnv (env : Env) (path : String) : M GoError := do
  let s ← getState
  let (packageManager, err) := DetectPackageManager (env.Exists s.calls) path
  if err.isSome then pure err
  else
    let install : M GoError := do
      let s1 ← getState
      orReturn (if s1.isVariant then
                  InstallPackagesInChrootEnv.loop env path packageManager s1.variant.Packages
                else pure none) <|
        InstallPackagesInChrootEnv.loop env path packageManager s1.distribution.Packages
    if s.distribution.Name = "arch" then InstallPackagesInChrootEnv.arch env path install
    else install

/-- The string `args` that the hook loops build from the split hook: starting
from the empty string, every element of `command` followed by a space. -/
def hookArgs (command : List String) : String :=
  command.foldl (fun args arg => args ++ (arg ++ " ")) ""

/-- One hook loop of `PreConfigRootfs` and `PostConfigRootfs`. -/
def runHooks (env : Env) (path : String) : List String → M GoError
  | [] => pure none
  | config :: rest =>
    let command := Split config " "
    let args := hookArgs command
    match command with
    | [] => goPanic "index out of range"
    | command0 :: _ =>
      orReturn (SpawnContainer env ["arch-chroot", path, command0, args]) (runHooks env path rest)

/-- The function `PreConfigRootfs`. -/
def PreConfigRootfs (env : Env) (path : String) : M GoError := do
  let s ← getState
  orReturn (if s.isVariant then runHooks env path s.variant.Pre else pure none) <|
    runHooks env path s.distribution.Pre

/-- The function `PostConfigRootfs`. -/
def PostConfigRootfs (env : Env) (path : String) : M GoError := do
  let s ← getState
  orReturn (if s.isVariant then runHooks env path s.variant.Post else pure none) <|
    runHooks env path s.distribution.Post

/-- The function `Hekate`. -/
def Hekate (env : Env) (dlDir basePath imageFile distro : String) : M GoError :=
  orReturn (invoke env (.Copy (dlDir ++ hekateBin) (basePath ++ "/lib/firmware/reboot_payload.bin"))) <|
  orReturn (invoke env (.CopyToDisk imageFile basePath)) <|
  orReturn (invoke env (.CopyDirectory (basePath ++ "/boot/bootloader") basePath)) <|
  orReturn (invoke env (.CopyDirectory (basePath ++ "/boot/switchroot") basePath)) <|
  orReturn (invoke env (.RemoveAll (basePath ++ "/boot/bootloader"))) <|
  orReturn (invoke env (.RemoveAll (basePath ++ "/boot/switchroot"))) <|
  orReturn (invoke env (.SplitFile (basePath ++ "/" ++ imageFile) (basePath ++ "/switchroot/install/")
    4290772992)) <|
  orReturn (invoke env (.Archive [basePath ++ "/switchroot/", basePath ++ "/bootloader/"]
    (basePath ++ "/" ++ distro ++ ".rar"))) <|
  pure none

/-! ## The permission walk -/

/-- What the callback reads off its `os.FileInfo` argument. -/
structure FileInfo where
  Name : String
  IsDir : Bool
  deriving DecidableEq, Repr

/-- The name of an entry. -/
def Node.name : Node → String
  | .file name => name
  | .link name _ => name
  | .dir name _ _ => name
  | .broken name _ => name

/-- Whether `Lstat` reports the entry as a directory. -/
def Node.isDir : Node → Bool
  | .dir _ _ _ => true
  | _ => false

/-- Whether `Lstat` fails on the entry. -/
def Node.lstatFails : Node → Bool
  | .broken _ _ => true
  | _ => false

/-- The `os.FileInfo` of an entry. -/
def Node.info (n : Node) : FileInfo := { Name := n.name, IsDir := n.isDir }

/-- The callback `walkFn` of `Factory`; `info = none` is the nil interface. -/
def walkFn (file : String) (info : Option FileInfo) (err : GoError) : M (Option WalkErr) :=
  match err with
  | some e => pure (some (.other e))
  | none =>
    match info with
    | none => goPanic "invalid memory address or nil pointer dereference"
    | some info =>
      if info.IsDir && info.Name == "dev" then pure (some .SkipDir)
      else if info.IsDir && info.Name == "proc" then pure (some .SkipDir)
      else if info.IsDir && info.Name == "sys" then pure (some .SkipDir)
      else if !info.IsDir then do
        record (.Chmod file 0o755)
        pure none
      else pure none

/-- The type `filepath.WalkFunc`. -/
abbrev WalkFunc := String → Option FileInfo → GoError → M (Option WalkErr)

mutual
/-- The recursion of `filepath.Walk` at an entry.  On an entry that is no
directory the callback is called; on a directory `ReadDir` comes first, the
callback is called with its error, and the entries are walked when neither
failed.  On an entry whose `Lstat` failed the callback is called with the nil
`FileInfo` and that error, as the loop over the names (and `Walk` at the
root) does in place of the recursion. -/
def walk (fn : WalkFunc) (path : String) : Node → M (Option WalkErr)
  | .file name => fn path (some { Name := name, IsDir := false }) none
  | .link name _ => fn path (some { Name := name, IsDir := false }) none
  | .broken _ e => fn path none (some e)
  | .dir name readErr children => do
    let err1 ← fn path (some { Name := name, IsDir := true }) readErr
    if readErr.isSome then pure err1
    else
      match err1 with
      | some e => pure (some e)
      | none => walkNames fn path children
/-- The loop of `filepath.Walk` over the entries of the directory at `path`.
After a failed `Lstat` every error of the callback but `SkipDir` ends the
walk; otherwise `SkipDir` returned for a directory only skips that directory
and every other error ends the walk. -/
def walkNames (fn : WalkFunc) (path : String) : List Node → M (Option WalkErr)
  | [] => pure none
  | c :: cs => do
    let err ← walk fn (path ++ "/" ++ c.name) c
    match err with
    | none => walkNames fn path cs
    | some e =>
      if (if c.lstatFails then e ≠ WalkErr.SkipDir else (!c.isDir || e ≠ WalkErr.SkipDir)) then
        pure (some e)
      else walkNames fn path cs
end

/-- The function `filepath.Walk`. -/
def Walk (env : Env) (root : String) (fn : WalkFunc) : M GoError := do
  let s ← getState
  let err ← (match env.Lstat s.calls root with
    | .error e => fn root none (some e)
    | .ok node => walk fn root node)
  match err with
  | none => pure none
  | some .SkipDir => pure none
  | some (.other e) => pure (some e)

/-! ## `Factory` -/

/-- The end of `Factory`: the disk image and its packaging. -/
def Factory.package (env : Env) (distro basePath dlDir : String) : M GoError := do
  let s ← getState
  let afterDisk (imageFile : String) : M GoError :=
    if s.hekate then orReturn (Hekate env dlDir basePath imageFile distro) (pure none)
    else orReturn (invoke env (.CopyToDisk imageFile basePath)) (pure none)
  if s.isVariant then
    orReturn (invoke env (.CreateDisk basePath basePath s.variant.Name "ext4")) <|
      afterDisk (basePath ++ "/" ++ s.variant.Name ++ ".img")
  else
    orReturn (invoke env (.CreateDisk basePath basePath s.distribution.Name "ext4")) <|
      afterDisk (basePath ++ "/" ++ s.distribution.Name ++ ".img")

/-- The stages of `Factory` after the architecture check. -/
def Factory.stages (env : Env) (distro basePath dlDir : String) : M GoError :=
  orLogReturn (PrepareFiles env basePath dlDir) <|
  orReturn (invoke env .BinfmtSupport) <|
  orReturn (invoke env (.PreChroot basePath)) <|
  orReturn (Walk env basePath walkFn) <|
  orReturn (PreConfigRootfs env basePath) <|
  orLogReturn (InstallPackagesInChrootEnv env basePath) <|
  orReturn (PostConfigRootfs env basePath) <|
  Factory.package env distro basePath dlDir

/-- The body of `Factory` once the requested name has been canonicalised. -/
def Factory.build (env : Env) (distro : String) : M GoError := do
  let s ← getState
  if s.isAndroid then do
    modifyState fun s =>
      { s with dockerImageName := "docker.io/pablozaiden/switchroot-android-build:1.0.4" }
    orReturn (invoke env (.MkdirAll "/root/android/lineage" 0o755)) <|
      orLogReturn (invoke env (.SpawnContainerFull ["ROM_NAME=" ++ distro, "ROM_TYPE=zip"] true)) <|
      pure none
  else do
    let basePath := "/root/linux/" ++ distro
    let dlDir := "/root/linux/downloadedFiles/"
    modifyState fun s => { s with dockerImageName := "docker.io/alizkan/jet-factory:1.0.0" }
    let err ← (fun s => Res.ok (SetDistro distro s).2 (SetDistro distro s).1 : M GoError)
    if err.isSome then pure err
    else do
      let s1 ← getState
      match IsValidArchitecture s1 with
      | none => pure err
      | some _ => Factory.stages env distro basePath dlDir

/-- The function `Factory`. -/
def Factory (env : Env) (distro : String) : M GoError :=
  if distro = "" then do
    let (sel, err) ← SelectDistro env
    if err.isSome then pure err
    else
      match sel with
      | none => goPanic "invalid memory address or nil pointer dereference"
      | some name => Factory.build env name
  else if distro = "opensuse" then Factory.build env "leap"
  else if distro = "lineage" ∨ distro = "icosa" ∨ distro = "foster" ∨ distro = "foster_tab" then do
    modifyState fun s => { s with isAndroid := true }
    Factory.build env (if distro = "lineage" then "icosa" else distro)
  else Factory.build env distro

/-! ## Definitions used to state the claims -/

/-- The descriptor `[binary, verb, assume-yes-flag]` of a manager, in the
words of the spec. -/
def descriptorOf (man : String) : List String :=
  if man = "pacman" then [man, "-Syu", "--noconfirm"] else [man, "install", "-y"]

/-- The invocation that a hook loop issues for one hook string: the argument
vector built in the loop body, handed to `SpawnContainer`. -/
def hookCall (path config : String) : Call :=
  .SpawnContainer ["arch-chroot", path, (Split config " ").headD "", hookArgs (Split config " ")]

/-- The answer of the world to the invocation of hook number `i`, when the
hooks before it have been invoked after the calls `before`. -/
def hookOutcome (env : Env) (path : String) (before : List Call) (hooks : List String) (i : Nat) :
    GoError :=
  env.fails (before ++ (hooks.take i).map (hookCall path)) (hookCall path (hooks.getD i ""))

/-- The pre-hooks of a run in the order of the spec: those of the variant,
when one is selected, then those of the distribution. -/
def preHooks (s : State) : List String :=
  (if s.isVariant then s.variant.Pre else []) ++ s.distribution.Pre

/-- The post-hooks of a run, in the same order. -/
def postHooks (s : State) : List String :=
  (if s.isVariant then s.variant.Post else []) ++ s.distribution.Post

/-- The hook string made of the given tokens with one space between
neighbours. -/
def joinTokens : List String → String
  | [] => ""
  | [t] => t
  | t :: u :: rest => t ++ " " ++ joinTokens (u :: rest)

/-- The given tokens, each followed by one space, in one string. -/
def spaced : List String → String
  | [] => ""
  | t :: ts => t ++ " " ++ spaced ts

/-- What kind of entry `Lstat` finds at a path. -/
inductive EntryKind where
  | file
  | link (target : Option String)
  | dir
  | broken
  deriving DecidableEq, Repr

/-- One entry of a staged tree: its path, its kind, and whether it lies in the
subtree of a directory named `dev`, `proc` or `sys` (such a directory lies in
its own subtree). -/
structure Entry where
  path : String
  kind : EntryKind
  shielded : Bool
  deriving DecidableEq, Repr

/-- The directory names whose subtrees the permission walk must leave alone. -/
def pseudoDirs : List String := ["dev", "proc", "sys"]

mutual
/-- Every entry of the tree found at `path`, the entry itself first and then
the entries of a directory in their order; `shielded` says whether `path`
already lies below a directory named `dev`, `proc` or `sys`. -/
def entriesOf (path : String) (shielded : Bool) : Node → List Entry
  | .file _ => [{ path := path, kind := .file, shielded := shielded }]
  | .link _ target => [{ path := path, kind := .link target, shielded := shielded }]
  | .broken _ _ => [{ path := path, kind := .broken, shielded := shielded }]
  | .dir name _ children =>
    { path := path, kind := .dir, shielded := shielded || pseudoDirs.contains name } ::
      entriesIn path (shielded || pseudoDirs.contains name) children
/-- Every entry below the directory at `path` whose entries are given. -/
def entriesIn (path : String) (shielded : Bool) : List Node → List Entry
  | [] => []
  | c :: cs => entriesOf (path ++ "/" ++ c.name) shielded c ++ entriesIn path shielded cs
end

/-- Whether `Lstat` finds the entry and it is no directory (a file or a
symbolic link) and it lies in no subtree of a directory named `dev`, `proc`
or `sys`. -/
def Entry.chmodable (e : Entry) : Bool :=
  (match e.kind with
    | .file => true
    | .link _ => true
    | _ => false) && !e.shielded

/-- The calls of `os.Chmod` that the permission walk is to make: mode `0755`
on the path of every entry that is no directory and lies in no subtree of a
directory named `dev`, `proc` or `sys`. -/
def chmodCalls (es : List Entry) : List Call :=
  (es.filter Entry.chmodable).map fun e => Call.Chmod e.path 0o755

mutual
/-- Whether `Lstat` and `ReadDir` succeed on everything the permission walk
reaches in the tree: the entries of a directory named `dev`, `proc` or `sys`
are not reached, the directory itself is. -/
def reachableReadable : Node → Bool
  | .file _ => true
  | .link _ _ => true
  | .broken _ _ => false
  | .dir name readErr children =>
    readErr.isNone && (pseudoDirs.contains name || reachableReadableIn children)
/-- The same for the entries of a directory. -/
def reachableReadableIn : List Node → Bool
  | [] => true
  | c :: cs => reachableReadable c && reachableReadableIn cs
end

/-- The path of the entry whose mode `os.Chmod` sets when it is called on the
path of this entry: `os.Chmod` follows a symbolic link to its target and
changes nothing when the link dangles or `Lstat` fails. -/
def Entry.inode (e : Entry) : Option String :=
  match e.kind with
  | .link target => target
  | .broken => none
  | _ => some e.path

/-- The effect of one recorded call on the modes of a tree with the given
entries: the path whose mode is set, and the mode. -/
def chmodEffect (es : List Entry) : Call → Option (String × Nat)
  | .Chmod path mode =>
    match es.find? (fun e => e.path == path) with
    | some e => e.inode.map fun target => (target, mode)
    | none => none
  | _ => none

/-- The mode changes that a sequence of recorded calls makes in a tree with
the given entries, in order. -/
def modeChanges (es : List Entry) (calls : List Call) : List (String × Nat) :=
  calls.filterMap (chmodEffect es)

/-- Every name of a catalog: each distribution's name followed by the names
of its variants. -/
def catalogNames : List Distribution → List String
  | [] => []
  | d :: rest => d.Name :: (d.Variants.map (·.Name) ++ catalogNames rest)

/-! ## Example inputs -/

/-- A catalog with one distribution that has one variant. -/
def exampleCatalog : List Distribution :=
  [{ Name := "ubuntu", Pre := ["apt update"], Post := ["ldconfig"], Packages := ["vim"],
     Architectures := [("aarch64", ["http://mirror/ubuntu.tar.gz"])],
     Variants := [{ Name := "kubuntu", Pre := ["echo kde"], Post := [], Packages := ["kde"] }] }]

/-- The state at the start of a run on `exampleCatalog`. -/
def exampleStart (archi : String) : State :=
  State.init exampleCatalog archi false false false false

/-- The state in which `ubuntu` of `exampleCatalog` is selected. -/
def ubuntuState : State := (SetDistro "ubuntu" (exampleStart "aarch64")).1

/-- A state in which the variant `kubuntu` is selected together with its
parent `ubuntu`. -/
def kubuntuState : State :=
  { ubuntuState with
    isVariant := true
    variant := { Name := "kubuntu", Pre := ["echo kde"], Post := [], Packages := ["kde"] } }

/-- A staged tree that holds both `/usr/bin/dnf` and `/usr/bin/yum` under `/r`. -/
def dnfAndYum (path : String) : Bool := path == "/r/usr/bin/dnf" || path == "/r/usr/bin/yum"

/-- A catalog whose mirror template asks for a version. -/
def versionedCatalog : List Distribution :=
  [{ Name := "fedora", Pre := [], Post := [], Packages := [],
     Architectures := [("aarch64", ["http://mirror/releases/{VERSION}/images/"])],
     Variants := [] }]

/-- The state in which `fedora` of `versionedCatalog` is selected. -/
def versionedStart : State :=
  (SetDistro "fedora" (State.init versionedCatalog "aarch64" false false false false)).1

/-- A world in which every collaborator succeeds, no file exists, every
listing is empty and the selector picks the first option. -/
def quietEnv : Env :=
  { fails := fun _ _ => none
    Exists := fun _ _ => false
    CliSelector := fun _ _ options => (options.headD "", none)
    WalkURL := fun _ _ => some ""
    FindAllStringSubmatch := fun _ _ => []
    StatIsNotExist := fun _ _ => true
    ReadFile := fun _ _ => ("", none)
    Lstat := fun _ _ => .error "no such file or directory" }

/-- The world `quietEnv` with a mirror: the listing of
`http://mirror/releases` is `>1.2/>10/>3.14/`, in which the version pattern
matches `>1.2/`, `>10/` and `>3.14/`; every other listing is `imageListing`,
in which the image pattern matches what `imageMatches` says. -/
def listingEnv (imageListing : String) (imageMatches : List (List String)) : Env :=
  { quietEnv with
    WalkURL := fun _ url =>
      some (if url = "http://mirror/releases" then ">1.2/>10/>3.14/" else imageListing)
    FindAllStringSubmatch := fun pattern text =>
      if pattern = versionPattern ∧ text = ">1.2/>10/>3.14/" then
        [[">1.2/", "1.2"], [">10/", "10"], [">3.14/", "3.14"]]
      else if pattern = imagePattern ∧ text = imageListing then imageMatches
      else [] }

/-- The world `quietEnv` in which the call `bad` fails. -/
def failingEnv (bad : Call) : Env :=
  { quietEnv with fails := fun _ c => if c = bad then some "exit status 1" else none }

/-- A staged tree with `dev` and `proc` at the top and a `sys` further down. -/
def exampleTree : Node :=
  .dir "ubuntu" none
    [.dir "dev" none [.file "null"],
     .dir "etc" none [.file "passwd"],
     .dir "proc" none [.dir "1" none [.file "status"]],
     .dir "usr" none [.dir "bin" none [.file "sh"], .dir "sys" none [.file "notes"]]]

/-- The world `quietEnv` in which `exampleTree` is staged. -/
def treeEnv : Env := { quietEnv with Lstat := fun _ _ => .ok exampleTree }

/-- A staged tree with two symbolic links outside `proc`: `etc/mtab` points
at a file inside `proc`, and `lib64` points at the directory `lib`. -/
def linkedTree : Node :=
  .dir "ubuntu" none
    [.dir "etc" none [.link "mtab" (some "/root/linux/ubuntu/proc/self/mounts")],
     .dir "lib" none [.file "libc.so"],
     .link "lib64" (some "/root/linux/ubuntu/lib"),
     .dir "proc" none [.dir "self" none [.file "mounts"]]]

/-- The world `quietEnv` in which `linkedTree` is staged. -/
def linkedEnv : Env := { quietEnv with Lstat := fun _ _ => .ok linkedTree }

/-- A staged tree whose `proc` cannot be read. -/
def lockedTree : Node :=
  .dir "ubuntu" none
    [.dir "etc" none [.file "passwd"],
     .dir "proc" (some "permission denied") [],
     .dir "usr" none [.file "sh"]]

/-- The world `quietEnv` in which `lockedTree` is staged. -/
def lockedEnv : Env := { quietEnv with Lstat := fun _ _ => .ok lockedTree }

/-! ## Lemmas on the embedding -/

@[simp] theorem M.pure_run {α : Type} (a : α) (s : State) : (pure a : M α) s = .ok a s := rfl

@[simp] theorem M.bind_run {α β : Type} (m : M α) (f : α → M β) (s : State) :
    (m >>= f) s = match m s with
      | .ok a s1 => f a s1
      | .panic msg s1 => .panic msg s1 := rfl

@[simp] theorem getState_run (s : State) : getState s = .ok s s := rfl

/-- The worker of `Contains` decides whether the substring is an infix. -/
theorem containsChars_iff (sub l : List Char) : containsChars sub l = true ↔ sub <:+: l := by
  induction l with
  | nil => simp [containsChars]
  | cons c cs ih =>
    simp only [containsChars, Bool.or_eq_true, ih, List.isPrefixOf_iff_prefix]
    rw [List.infix_cons_iff]

/-- No path through `SetDistro` returns an error. -/
theorem SetDistro_error_nil (name : String) (s : State) : (SetDistro name s).2 = none := by
  unfold SetDistro
  generalize s.basesDistro = l
  induction l with
  | nil => rfl
  | cons d rest ih =>
    unfold SetDistro.loop
    split
    · rfl
    · split
      · rfl
      · exact ih

/-! ### Splitting a hook string -/

theorem splitChars_ne_nil (sep l : List Char) (k : Nat) : splitChars sep l k ≠ [] := by
  induction l generalizing k with
  | nil => simp [splitChars]
  | cons c cs ih =>
    cases k with
    | succ k => simpa [splitChars] using ih k
    | zero =>
      unfold splitChars
      split
      · simp
      · split <;> simp

/-- The function `Split` never returns the empty slice. -/
theorem Split_ne_nil (s sep : String) : Split s sep ≠ [] := by
  simp [Split, splitChars_ne_nil]

theorem splitChars_last (t : List Char) (h : ' ' ∉ t) : splitChars [' '] t 0 = [t] := by
  induction t with
  | nil => rfl
  | cons c cs ih =>
    have hc : c ≠ ' ' := fun e => h (by simp [e])
    have hcs : ' ' ∉ cs := fun e => h (by simp [e])
    have hp : List.isPrefixOf [' '] (c :: cs) = false := by
      simp [List.isPrefixOf, Ne.symm hc]
    simp [splitChars, hp, ih hcs]

theorem splitChars_token (t more : List Char) (h : ' ' ∉ t) :
    splitChars [' '] (t ++ ' ' :: more) 0 = t :: splitChars [' '] more 0 := by
  induction t with
  | nil => simp [splitChars, List.isPrefixOf]
  | cons c cs ih =>
    have hc : c ≠ ' ' := fun e => h (by simp [e])
    have hcs : ' ' ∉ cs := fun e => h (by simp [e])
    have hp : List.isPrefixOf [' '] (c :: (cs ++ ' ' :: more)) = false := by
      simp [List.isPrefixOf, Ne.symm hc]
    simp [splitChars, hp, ih hcs]

/-- Splitting on the space gives back the tokens of a hook string. -/
theorem Split_joinTokens (command : String) (rest : List String)
    (h : ∀ t ∈ command :: rest, ' ' ∉ t.data) :
    Split (joinTokens (command :: rest)) " " = command :: rest := by
  induction rest generalizing command with
  | nil =>
    have := splitChars_last command.data (h command (by simp))
    simp [Split, joinTokens, show " ".data = [' '] from rfl, this]
  | cons u rest ih =>
    have h1 := splitChars_token command.data (joinTokens (u :: rest)).data (h command (by simp))
    have h2 := ih u (fun t ht => h t (by simp at ht ⊢; tauto))
    simp only [Split, show " ".data = [' '] from rfl] at h2 ⊢
    simp only [joinTokens, String.data_append, show " ".data = [' '] from rfl, List.append_assoc,
      List.singleton_append, h1, List.map_cons, h2]

theorem hookArgs_foldl (acc : String) (command : List String) :
    command.foldl (fun args arg => args ++ (arg ++ " ")) acc = acc ++ spaced command := by
  induction command generalizing acc with
  | nil => simp [spaced]
  | cons c cs ih =>
    simp only [List.foldl_cons, ih, spaced, String.append_assoc]

/-- The string `args` holds every element of `command`, the first included. -/
theorem hookArgs_cons (command : String) (rest : List String) :
    hookArgs (command :: rest) = command ++ " " ++ spaced rest := by
  simp [hookArgs, hookArgs_foldl, spaced]

theorem hookCall_joinTokens (path command : String) (rest : List String)
    (h : ∀ t ∈ command :: rest, ' ' ∉ t.data) :
    ∃ lead, hookCall path (joinTokens (command :: rest)) =
      .SpawnContainer ["arch-chroot", path, command, lead ++ spaced rest] := by
  refine ⟨command ++ " ", ?_⟩
  simp [hookCall, Split_joinTokens command rest h, hookArgs_cons]

/-! ### The hook loops -/

/-- One turn of a hook loop. -/
theorem runHooks_cons (env : Env) (path config : String) (rest : List String) (s : State) :
    runHooks env path (config :: rest) s =
      match env.fails s.calls (hookCall path config) with
      | some e => .ok (some e) { s with calls := s.calls ++ [hookCall path config] }
      | none => runHooks env path rest { s with calls := s.calls ++ [hookCall path config] } := by
  have hne := Split_ne_nil config " "
  conv_lhs => rw [runHooks]
  unfold hookCall
  cases hsp : Split config " " with
  | nil => exact absurd hsp hne
  | cons c0 cs =>
    simp only [orReturn, SpawnContainer, invoke, M.bind_run, List.headD_cons]
    cases env.fails s.calls _ <;> simp

theorem runHooks_all (env : Env) (path : String) (hooks : List String) (s : State)
    (h : ∀ i < hooks.length, hookOutcome env path s.calls hooks i = none) :
    runHooks env path hooks s =
      .ok none { s with calls := s.calls ++ hooks.map (hookCall path) } := by
  induction hooks generalizing s with
  | nil => simp [runHooks]
  | cons c rest ih =>
    rw [runHooks_cons]
    have h0 := h 0 (by simp)
    simp only [hookOutcome, List.take_zero, List.map_nil, List.append_nil,
      List.getD_cons_zero] at h0
    rw [h0]
    simp only
    rw [ih]
    · simp
    · intro i hi
      have := h (i + 1) (by simpa using hi)
      simpa [hookOutcome] using this

theorem runHooks_first_failure (env : Env) (path : String) (hooks : List String) (s : State)
    (i : Nat) (e : String) (hi : i < hooks.length)
    (hbefore : ∀ j < i, hookOutcome env path s.calls hooks j = none)
    (hfail : hookOutcome env path s.calls hooks i = some e) :
    runHooks env path hooks s =
      .ok (some e) { s with calls := s.calls ++ (hooks.take (i + 1)).map (hookCall path) } := by
  induction hooks generalizing s i with
  | nil => simp at hi
  | cons c rest ih =>
    rw [runHooks_cons]
    cases i with
    | zero =>
      simp only [hookOutcome, List.take_zero, List.map_nil, List.append_nil,
        List.getD_cons_zero] at hfail
      rw [hfail]
      simp
    | succ i =>
      have h0 := hbefore 0 (by simp)
      simp only [hookOutcome, List.take_zero, List.map_nil, List.append_nil,
        List.getD_cons_zero] at h0
      rw [h0]
      simp only
      rw [ih _ i (by simpa using hi)]
      · simp
      · intro j hj
        have := hbefore (j + 1) (by omega)
        simpa [hookOutcome] using this
      · simpa [hookOutcome] using hfail

/-- Two hook loops in a row are one loop over both lists. -/
theorem runHooks_append (env : Env) (path : String) (a b : List String) (s : State) :
    runHooks env path (a ++ b) s = orReturn (runHooks env path a) (runHooks env path b) s := by
  induction a generalizing s with
  | nil => simp [runHooks, orReturn]
  | cons c rest ih =>
    rw [List.cons_append, runHooks_cons]
    simp only [orReturn, M.bind_run] at ih ⊢
    rw [runHooks_cons]
    cases env.fails s.calls (hookCall path c) with
    | some e => simp
    | none => simp only; rw [ih]

theorem PreConfigRootfs_eq (env : Env) (path : String) (s : State) :
    PreConfigRootfs env path s = runHooks env path (preHooks s) s := by
  unfold preHooks
  rw [runHooks_append]
  simp only [PreConfigRootfs, M.bind_run, getState_run]
  cases s.isVariant <;> simp [runHooks]

theorem PostConfigRootfs_eq (env : Env) (path : String) (s : State) :
    PostConfigRootfs env path s = runHooks env path (postHooks s) s := by
  unfold postHooks
  rw [runHooks_append]
  simp only [PostConfigRootfs, M.bind_run, getState_run]
  cases s.isVariant <;> simp [runHooks]

/-! ### The permission walk -/

theorem chmodCalls_append (a b : List Entry) :
    chmodCalls (a ++ b) = chmodCalls a ++ chmodCalls b := by
  simp [chmodCalls]

theorem chmodCalls_dir (path : String) (shielded : Bool) (es : List Entry) :
    chmodCalls ({ path := path, kind := .dir, shielded := shielded } :: es) = chmodCalls es := by
  simp [chmodCalls, Entry.chmodable]

theorem chmodCalls_shielded (t : Node) : ∀ path, chmodCalls (entriesOf path true t) = [] := by
  refine Node.rec (motive_1 := fun t => ∀ path, chmodCalls (entriesOf path true t) = [])
    (motive_2 := fun cs => ∀ path, chmodCalls (entriesIn path true cs) = []) ?_ ?_ ?_ ?_ ?_ ?_ t
  · intro name path
    simp [entriesOf, chmodCalls, Entry.chmodable]
  · intro name target path
    simp [entriesOf, chmodCalls, Entry.chmodable]
  · intro name readErr children ih path
    simpa [entriesOf, chmodCalls_dir] using ih path
  · intro name err path
    simp [entriesOf, chmodCalls, Entry.chmodable]
  · intro path
    simp [entriesIn, chmodCalls]
  · intro c cs ihc ihcs path
    simp [entriesIn, chmodCalls_append, ihc, ihcs]

theorem chmodCalls_shielded_in (cs : List Node) (path : String) :
    chmodCalls (entriesIn path true cs) = [] := by
  induction cs with
  | nil => simp [entriesIn, chmodCalls]
  | cons c cs ih => simp [entriesIn, chmodCalls_append, chmodCalls_shielded, ih]

/-- The callback on a directory that was read: `SkipDir` for the three names,
nil otherwise, and no call either way. -/
theorem walkFn_dir (file name : String) (s : State) :
    walkFn file (some { Name := name, IsDir := true }) none s =
      .ok (if pseudoDirs.contains name then some .SkipDir else none) s := by
  by_cases h1 : name = "dev"
  · subst h1; rfl
  by_cases h2 : name = "proc"
  · subst h2; rfl
  by_cases h3 : name = "sys"
  · subst h3; rfl
  simp [walkFn, pseudoDirs, h1, h2, h3]

/-- The callback on an entry that is no directory: one `Chmod`. -/
theorem walkFn_file (file name : String) (s : State) :
    walkFn file (some { Name := name, IsDir := false }) none s =
      .ok none { s with calls := s.calls ++ [.Chmod file 0o755] } := by
  simp [walkFn, record]

/-- The callback on an entry that could not be read: the error, whatever the
entry is called. -/
theorem walkFn_err (file : String) (info : Option FileInfo) (e : String) (s : State) :
    walkFn file info (some e) s = .ok (some (.other e)) s := rfl

/-- On a tree that is read without error as far as the walk reaches, the walk
makes the calls of `chmodCalls` and no other. -/
theorem walk_readable (t : Node) : reachableReadable t = true → ∀ (path : String) (s : State),
    walk walkFn path t s =
      .ok (if t.isDir && pseudoDirs.contains t.name then some .SkipDir else none)
        { s with calls := s.calls ++ chmodCalls (entriesOf path false t) } := by
  refine Node.rec
    (motive_1 := fun t => reachableReadable t = true → ∀ (path : String) (s : State),
      walk walkFn path t s =
        .ok (if t.isDir && pseudoDirs.contains t.name then some .SkipDir else none)
          { s with calls := s.calls ++ chmodCalls (entriesOf path false t) })
    (motive_2 := fun cs => reachableReadableIn cs = true → ∀ (path : String) (s : State),
      walkNames walkFn path cs s =
        .ok none { s with calls := s.calls ++ chmodCalls (entriesIn path false cs) })
    ?_ ?_ ?_ ?_ ?_ ?_ t
  · intro name _ path s
    rw [walk, walkFn_file]
    simp [Node.isDir, entriesOf, chmodCalls, Entry.chmodable]
  · intro name target _ path s
    rw [walk, walkFn_file]
    simp [Node.isDir, entriesOf, chmodCalls, Entry.chmodable]
  · intro name readErr children ih hr path s
    simp only [reachableReadable, Bool.and_eq_true, Bool.or_eq_true, Option.isNone_iff_eq_none]
      at hr
    obtain ⟨rfl, hr⟩ := hr
    rw [walk]
    simp only [M.bind_run, walkFn_dir]
    by_cases hp : name ∈ pseudoDirs
    · simp [hp, Node.isDir, Node.name, entriesOf, chmodCalls_shielded_in, chmodCalls_dir]
    · have hc : reachableReadableIn children = true := by
        rcases hr with h | h
        · exact absurd (by simpa using h) hp
        · exact h
      simp [hp, Node.isDir, Node.name, entriesOf, ih hc, chmodCalls_dir]
  · intro name err hr
    simp [reachableReadable] at hr
  · intro _ path s
    simp [walkNames, entriesIn, chmodCalls]
  · intro c cs ihc ihcs hr path s
    simp only [reachableReadableIn, Bool.and_eq_true] at hr
    have hl : c.lstatFails = false := by
      cases c <;> simp_all [Node.lstatFails, reachableReadable]
    rw [walkNames]
    simp only [M.bind_run, ihc hr.1, hl]
    by_cases hp : (c.isDir && pseudoDirs.contains c.name) = true
    · simp only [hp, if_true]
      have hd : c.isDir = true := by simp at hp; exact hp.1
      simp [hd, ihcs hr.2, entriesIn, chmodCalls_append]
    · simp only [hp]
      simp [ihcs hr.2, entriesIn, chmodCalls_append]

/-- On a tree in which the walk reaches an entry that cannot be read, the walk
ends with an error after some of the calls of `chmodCalls`, made in their
order. -/
theorem walk_unreadable (t : Node) : reachableReadable t = false →
    ∀ (path : String) (s : State), ∃ (e : String) (made : List Call),
      walk walkFn path t s = .ok (some (.other e)) { s with calls := s.calls ++ made } ∧
      made <+: chmodCalls (entriesOf path false t) := by
  refine Node.rec
    (motive_1 := fun t => reachableReadable t = false →
      ∀ (path : String) (s : State), ∃ (e : String) (made : List Call),
        walk walkFn path t s = .ok (some (.other e)) { s with calls := s.calls ++ made } ∧
        made <+: chmodCalls (entriesOf path false t))
    (motive_2 := fun cs => reachableReadableIn cs = false →
      ∀ (path : String) (s : State), ∃ (e : String) (made : List Call),
        walkNames walkFn path cs s = .ok (some (.other e)) { s with calls := s.calls ++ made } ∧
        made <+: chmodCalls (entriesIn path false cs))
    ?_ ?_ ?_ ?_ ?_ ?_ t
  · intro name hr
    simp [reachableReadable] at hr
  · intro name target hr
    simp [reachableReadable] at hr
  · intro name readErr children ih hr path s
    cases readErr with
    | some e =>
      refine ⟨e, [], ?_, List.nil_prefix⟩
      rw [walk]
      simp [walkFn_err]
    | none =>
      simp only [reachableReadable, Option.isNone_none, Bool.true_and, Bool.or_eq_false_iff] at hr
      have hp : name ∉ pseudoDirs := by simpa using hr.1
      obtain ⟨e, made, hw, hpre⟩ := ih hr.2 path s
      refine ⟨e, made, ?_, ?_⟩
      · rw [walk]
        simp [walkFn_dir, hp, hw]
      · simpa [entriesOf, chmodCalls_dir, hp] using hpre
  · intro name err _ path s
    refine ⟨err, [], ?_, List.nil_prefix⟩
    rw [walk]
    simp [walkFn_err]
  · intro hr
    simp [reachableReadableIn] at hr
  · intro c cs ihc ihcs hr path s
    rw [walkNames]
    by_cases hc : reachableReadable c = true
    · have hcs : reachableReadableIn cs = false := by
        simpa [reachableReadableIn, hc] using hr
      have hl : c.lstatFails = false := by
        cases c <;> simp_all [Node.lstatFails, reachableReadable]
      obtain ⟨e, made, hw, hpre⟩ := ihcs hcs path
        { s with calls := s.calls ++ chmodCalls (entriesOf (path ++ "/" ++ c.name) false c) }
      refine ⟨e, chmodCalls (entriesOf (path ++ "/" ++ c.name) false c) ++ made, ?_, ?_⟩
      · simp only [M.bind_run, walk_readable c hc, hl]
        by_cases hp : (c.isDir && pseudoDirs.contains c.name) = true
        · simp only [hp, if_true]
          have hd : c.isDir = true := by simp at hp; exact hp.1
          simp [hd, hw]
        · simp only [hp]
          simp [hw]
      · simp only [entriesIn, chmodCalls_append]
        exact (List.prefix_append_right_inj _).mpr hpre
    · simp only [Bool.not_eq_true] at hc
      obtain ⟨e, made, hw, hpre⟩ := ihc hc (path ++ "/" ++ c.name) s
      refine ⟨e, made, ?_, ?_⟩
      · simp only [M.bind_run, hw]
        simp
      · simp only [entriesIn, chmodCalls_append]
        exact hpre.trans (List.prefix_append _ _)

theorem find_entry_by_path (es : List Entry) (e : Entry) (he : e ∈ es)
    (hnodup : (es.map (·.path)).Nodup) : es.find? (fun x => x.path == e.path) = some e := by
  induction es with
  | nil => simp at he
  | cons a rest ih =>
    simp only [List.map_cons, List.nodup_cons] at hnodup
    rcases List.mem_cons.mp he with rfl | hmem
    · simp
    · have hne : (a.path == e.path) = false := by
        simpa using fun h : a.path = e.path => hnodup.1 (h ▸ List.mem_map_of_mem _ hmem)
      simp [List.find?, hne, ih hmem hnodup.2]

/-- In a tree whose entries have distinct paths, a call of `os.Chmod` on the
path of an entry sets the mode of that entry, or of its target when it is a
symbolic link. -/
theorem chmodEffect_entry (es : List Entry) (e : Entry) (mode : Nat) (he : e ∈ es)
    (hnodup : (es.map (·.path)).Nodup) :
    chmodEffect es (.Chmod e.path mode) = e.inode.map fun target => (target, mode) := by
  simp [chmodEffect, find_entry_by_path es e he hnodup]

/-- The mode changes made by the calls of `chmodCalls`. -/
theorem modeChanges_chmodCalls (es : List Entry) (hnodup : (es.map (·.path)).Nodup) :
    modeChanges es (chmodCalls es) =
      (es.filter Entry.chmodable).filterMap fun e => e.inode.map fun target => (target, 0o755) := by
  unfold modeChanges chmodCalls
  rw [List.filterMap_map]
  apply List.filterMap_congr
  intro e he
  exact chmodEffect_entry es e 0o755 (List.mem_of_mem_filter he) hnodup
/-! ### Name lookup, architecture check, manager detection -/

theorem findVariant_none (name : String) (vs : List Variant) (h : name ∉ vs.map (·.Name)) :
    SetDistro.findVariant name vs = none := by
  induction vs with
  | nil => rfl
  | cons v vs ih =>
    simp only [List.map_cons, List.mem_cons, not_or] at h
    simp [SetDistro.findVariant, h.1, ih h.2]

theorem findVariant_mem (v : Variant) (vs : List Variant) (hv : v ∈ vs)
    (hnodup : (vs.map (·.Name)).Nodup) : SetDistro.findVariant v.Name vs = some v := by
  induction vs with
  | nil => simp at hv
  | cons w vs ih =>
    simp only [List.map_cons, List.nodup_cons] at hnodup
    rcases List.mem_cons.mp hv with rfl | hmem
    · simp [SetDistro.findVariant]
    · have hne : v.Name ≠ w.Name := by
        intro e
        exact hnodup.1 (e ▸ List.mem_map_of_mem _ hmem)
      simp [SetDistro.findVariant, hne, ih hmem hnodup.2]

/-- A name that the catalog does not hold: nil error, state unchanged. -/
theorem SetDistro_name_not_in_catalog (name : String) (s : State) (h : name ∉ catalogNames s.basesDistro) :
    SetDistro name s = (s, none) := by
  unfold SetDistro
  generalize s.basesDistro = l at h
  induction l with
  | nil => rfl
  | cons d rest ih =>
    simp only [catalogNames, List.mem_cons, List.mem_append, not_or] at h
    simp [SetDistro.loop, h.1, findVariant_none name d.Variants h.2.1, ih h.2.2]

/-- With pairwise distinct names, a distribution's own name selects it. -/
theorem SetDistro_loop_own_name (d : Distribution) (l : List Distribution) (s : State)
    (hd : d ∈ l) (hnodup : (catalogNames l).Nodup) :
    SetDistro.loop d.Name l s =
      ({ s with distribution :=
          { Name := d.Name, Architectures := d.Architectures, Pre := d.Pre, Post := d.Post,
            Packages := d.Packages, Variants := [] } }, none) := by
  induction l with
  | nil => simp at hd
  | cons c rest ih =>
    simp only [catalogNames, List.nodup_cons, List.mem_append, not_or, List.nodup_append] at hnodup
    rcases List.mem_cons.mp hd with rfl | hmem
    · simp [SetDistro.loop]
    · have hin : d.Name ∈ catalogNames rest := by
        clear ih hnodup hd
        induction rest with
        | nil => simp at hmem
        | cons r rest ih2 =>
          rcases List.mem_cons.mp hmem with rfl | h2
          · simp [catalogNames]
          · simp [catalogNames, ih2 h2]
      have hne : d.Name ≠ c.Name := fun e => hnodup.1.2 (e ▸ hin)
      have hnv : d.Name ∉ c.Variants.map (·.Name) := fun hv => hnodup.2.2.2 hv hin
      simp only [SetDistro.loop, hne, if_false, findVariant_none _ _ hnv]
      exact ih hmem hnodup.2.2.1

/-- With pairwise distinct names, a variant's name selects the variant and
leaves the selected distribution as it was. -/
theorem SetDistro_loop_variant_name (d : Distribution) (v : Variant) (l : List Distribution)
    (s : State) (hd : d ∈ l) (hv : v ∈ d.Variants) (hnodup : (catalogNames l).Nodup) :
    SetDistro.loop v.Name l s = ({ s with isVariant := true, variant := v }, none) := by
  induction l with
  | nil => simp at hd
  | cons c rest ih =>
    simp only [catalogNames, List.nodup_cons, List.mem_append, not_or, List.nodup_append] at hnodup
    rcases List.mem_cons.mp hd with rfl | hmem
    · have hne : v.Name ≠ d.Name := fun e => hnodup.1.1 (e ▸ List.mem_map_of_mem _ hv)
      simp [SetDistro.loop, hne, findVariant_mem v d.Variants hv hnodup.2.1]
    · have hin : v.Name ∈ catalogNames rest := by
        clear ih hnodup hd
        induction rest with
        | nil => simp at hmem
        | cons r rest ih2 =>
          rcases List.mem_cons.mp hmem with rfl | h2
          · simp only [catalogNames, List.mem_cons, List.mem_append]
            exact Or.inr (Or.inl (List.mem_map_of_mem _ hv))
          · simp [catalogNames, ih2 h2]
      have hne : v.Name ≠ c.Name := fun e => hnodup.1.2 (e ▸ hin)
      have hnv : v.Name ∉ c.Variants.map (·.Name) := fun hv => hnodup.2.2.2 hv hin
      simp only [SetDistro.loop, hne, if_false, findVariant_none _ _ hnv]
      exact ih hmem hnodup.2.2.1

/-- With pairwise distinct names, a distribution's own name selects it and
leaves `isVariant` and the selected variant as they were. -/
theorem SetDistro_by_own_name (d : Distribution) (s : State) (hd : d ∈ s.basesDistro)
    (hnodup : (catalogNames s.basesDistro).Nodup) :
    SetDistro d.Name s =
      ({ s with distribution :=
          { Name := d.Name, Architectures := d.Architectures, Pre := d.Pre, Post := d.Post,
            Packages := d.Packages, Variants := [] } }, none) :=
  SetDistro_loop_own_name d s.basesDistro s hd hnodup

/-- With pairwise distinct names, a variant's name selects the variant and
leaves the selected distribution as it was. -/
theorem SetDistro_by_variant_name (d : Distribution) (v : Variant) (s : State)
    (hd : d ∈ s.basesDistro) (hv : v ∈ d.Variants)
    (hnodup : (catalogNames s.basesDistro).Nodup) :
    SetDistro v.Name s = ({ s with isVariant := true, variant := v }, none) :=
  SetDistro_loop_variant_name d v s.basesDistro s hd hv hnodup

theorem IsValidArchitecture_eq_none (s : State) :
    IsValidArchitecture s = none ↔ s.buildarch ∉ s.distribution.Architectures.map Prod.fst := by
  unfold IsValidArchitecture
  split <;> simp_all

theorem DetectPackageManager_error_nil (exist : String → Bool) (rootfs : String) :
    (DetectPackageManager exist rootfs).2 = none := by
  simp only [DetectPackageManager, managerList, DetectPackageManager.loop]
  simp
  split_ifs <;> rfl

/-! ### The candidate loops of `SelectVersion` -/

theorem submatchLoop_inner_eq (m : List (List String)) (acc : List String)
    (h : ∀ sub ∈ m, 2 ≤ sub.length) :
    submatchLoop.inner m acc = some (acc ++ m.map (·.getD 1 "")) := by
  induction m generalizing acc with
  | nil => simp [submatchLoop.inner]
  | cons sub rest ih =>
    have hs := h sub (by simp)
    match sub, hs with
    | _ :: x :: _, _ =>
      simp [submatchLoop.inner, ih (acc ++ [x]) (fun t ht => h t (by simp [ht]))]

/-- The nested loops hand over every match once per match. -/
theorem submatchLoop_eq (n : Nat) (m : List (List String)) (acc : List String)
    (h : ∀ sub ∈ m, 2 ≤ sub.length) :
    submatchLoop n m acc = some (acc ++ (List.replicate n (m.map (·.getD 1 ""))).flatten) := by
  induction n generalizing acc with
  | zero => simp [submatchLoop]
  | succ n ih =>
    simp [submatchLoop, submatchLoop_inner_eq m acc h, ih, List.replicate_succ]

/-! ## The claims -/

/-- C1 (the code departs from the claim): on `exampleCatalog`, from the
initial run state, `SetDistro "kubuntu"` returns nil, sets `isVariant` and
the selected variant, but leaves the selected distribution at its zero value
instead of the parent `ubuntu`; the architecture check that follows then
finds no architecture at all. -/
theorem SetDistro_variant_leaves_distribution_unset :
    (SetDistro "kubuntu" (exampleStart "aarch64")).2 = none ∧
    (SetDistro "kubuntu" (exampleStart "aarch64")).1.isVariant = true ∧
    (SetDistro "kubuntu" (exampleStart "aarch64")).1.variant =
      { Name := "kubuntu", Pre := ["echo kde"], Post := [], Packages := ["kde"] } ∧
    (SetDistro "kubuntu" (exampleStart "aarch64")).1.distribution = Distribution.zero ∧
    (SetDistro "kubuntu" (exampleStart "aarch64")).1.distribution.Architectures ≠
      [("aarch64", ["http://mirror/ubuntu.tar.gz"])] ∧
    IsValidArchitecture (SetDistro "kubuntu" (exampleStart "aarch64")).1 = none := by
  decide

/-- C2 (the code departs from the claim): `SetDistro` returns a nil error for
a name that the catalog does not know, here `"debian"` on `exampleCatalog`,
and leaves the state as it was. -/
theorem SetDistro_unknown_name_returns_nil :
    SetDistro "debian" (exampleStart "aarch64") = (exampleStart "aarch64", none) := by
  rfl

/-- C3 (the code departs from the claim): with `ubuntu` selected from
`exampleCatalog` and the architecture `x86_64`, which is no key of its mirror
map, `IsValidArchitecture` returns nil and `Factory` stops before any call to
a collaborator, but the error it returns is nil. -/
theorem Factory_unsupported_architecture_returns_nil (env : Env) :
    Factory env "ubuntu" (exampleStart "x86_64") =
      .ok none
        { exampleStart "x86_64" with
          dockerImageName := "docker.io/alizkan/jet-factory:1.0.0"
          distribution :=
            { Name := "ubuntu", Pre := ["apt update"], Post := ["ldconfig"], Packages := ["vim"],
              Architectures := [("aarch64", ["http://mirror/ubuntu.tar.gz"])], Variants := [] }
          calls := [] } ∧
    IsValidArchitecture (SetDistro "ubuntu" (exampleStart "x86_64")).1 = none := by
  exact ⟨rfl, by decide⟩

/-- C4 (the code departs from the claim): for a listing in which the version
pattern matches `1.2`, `10` and `3.14`, the selector is handed nine
candidates, the three matches three times over. -/
theorem SelectVersion_repeats_version_candidates :
    ((SelectVersion (listingEnv ">Fedora.raw.xz<" [[">Fedora.raw.xz", "Fedora.raw.xz"]])
        versionedStart).state.calls).take 2 =
      [.WalkURL "http://mirror/releases",
       .CliSelector "Select a version: "
         ["1.2", "10", "3.14", "1.2", "10", "3.14", "1.2", "10", "3.14"]] := by
  decide

/-- C5 (the code departs from the claim): when the image listing holds no
file that matches the image pattern, `SelectVersion` returns the empty URL
with a nil error. -/
theorem SelectVersion_no_image_returns_nil :
    (SelectVersion (listingEnv "<html></html>" []) versionedStart).val? = some ("", none) := by
  decide

/-- C6 (the code departs from the claim): in a staged tree without any of the
five manager binaries `DetectPackageManager` returns the nil descriptor with
a nil error, and `InstallPackagesInChrootEnv`, with `ubuntu` selected and the
package `vim` to install, panics on indexing that descriptor. -/
theorem DetectPackageManager_no_manager_returns_nil (env : Env) :
    DetectPackageManager (fun _ => false) "/root/linux/ubuntu" = ([], none) ∧
    InstallPackagesInChrootEnv { env with Exists := fun _ _ => false } "/root/linux/ubuntu"
        ubuntuState =
      .panic "index out of range" ubuntuState := by
  exact ⟨by decide, rfl⟩

/-- C7 (the claim as stated fails): in a tree that holds `dnf` and `yum` but
not `zypper`, the first present manager of the priority order is `dnf`, yet
the descriptor returned is that of `yum`. -/
theorem DetectPackageManager_later_manager_overrides :
    dnfAndYum ("/r" ++ "/usr/bin/" ++ "zypper") = false ∧
    dnfAndYum ("/r" ++ "/usr/bin/" ++ "dnf") = true ∧
    DetectPackageManager dnfAndYum "/r" ≠ (descriptorOf "dnf", none) ∧
    DetectPackageManager dnfAndYum "/r" = (["yum", "install", "-y"], none) := by
  decide

/-- C7 (amended): when at least one manager binary exists under `/usr/bin`
of the tree, `DetectPackageManager` returns, with a nil error, the descriptor
of the last manager of the order zypper, dnf, yum, pacman, apt whose binary
exists. -/
theorem DetectPackageManager_last_present_wins (exist : String → Bool) (rootfs : String)
    (pre post : List String) (man : String)
    (hlist : managerList = pre ++ man :: post)
    (hman : exist (rootfs ++ "/usr/bin/" ++ man) = true)
    (hpost : ∀ later ∈ post, exist (rootfs ++ "/usr/bin/" ++ later) = false) :
    DetectPackageManager exist rootfs = (descriptorOf man, none) := by
  unfold managerList at hlist
  rcases pre with _ | ⟨a, _ | ⟨b, _ | ⟨c, _ | ⟨d, _ | ⟨e, _ | ⟨f, pre⟩⟩⟩⟩⟩⟩ <;>
    simp at hlist
  all_goals
    casesm* _ ∧ _
    subst_vars
    simp only [List.mem_cons, List.mem_singleton, List.not_mem_nil, forall_eq_or_imp, forall_eq,
      or_false] at hpost
    simp [DetectPackageManager, managerList, DetectPackageManager.loop, descriptorOf, hman, hpost]

/-- C7 (amended), at the tree with `dnf` and `yum`: `yum` is the last one
present and its descriptor is returned. -/
theorem DetectPackageManager_last_present_wins_witness :
    DetectPackageManager dnfAndYum "/r" = (["yum", "install", "-y"], none) :=
  DetectPackageManager_last_present_wins dnfAndYum "/r" ["zypper", "dnf"] ["pacman", "apt"] "yum"
    (by decide) (by decide) (by decide)

/-- C8 (the claim as stated fails): for the pre-hook `apt update` of `ubuntu`
the invocation carries the one argument `apt update ` (the command token
again, and all tokens in one string), not the argument `update`. -/
theorem PreConfigRootfs_merges_hook_tokens :
    (PreConfigRootfs quietEnv "/root/linux/ubuntu" ubuntuState).state.calls =
      [.SpawnContainer ["arch-chroot", "/root/linux/ubuntu", "apt", "apt update "]] ∧
    (PreConfigRootfs quietEnv "/root/linux/ubuntu" ubuntuState).state.calls ≠
      [.SpawnContainer ["arch-chroot", "/root/linux/ubuntu", "apt", "update"]] := by
  decide

/-- C8 (amended): `PreConfigRootfs` (and `PostConfigRootfs` for the
post-hooks) issues one invocation per hook string, the variant's hooks first
when a variant is selected and then the distribution's, each list in order:
when every invocation succeeds all are issued and nil is returned; when
invocation `i` is the first to fail, the invocations up to and including it
are issued and its error is returned.  The invocation for a hook string made
of space-free tokens joined by single spaces is
`arch-chroot path command args`, where `command` is the first token and the
single string `args` ends with the remaining tokens, each followed by one
space. -/
theorem hooks_run_in_order_until_first_failure (env : Env) (path : String) (s : State) :
    ((∀ i < (preHooks s).length, hookOutcome env path s.calls (preHooks s) i = none) →
      PreConfigRootfs env path s =
        .ok none { s with calls := s.calls ++ (preHooks s).map (hookCall path) }) ∧
    (∀ (i : Nat) (e : String), i < (preHooks s).length →
      (∀ j < i, hookOutcome env path s.calls (preHooks s) j = none) →
      hookOutcome env path s.calls (preHooks s) i = some e →
      PreConfigRootfs env path s =
        .ok (some e)
          { s with calls := s.calls ++ ((preHooks s).take (i + 1)).map (hookCall path) }) ∧
    ((∀ i < (postHooks s).length, hookOutcome env path s.calls (postHooks s) i = none) →
      PostConfigRootfs env path s =
        .ok none { s with calls := s.calls ++ (postHooks s).map (hookCall path) }) ∧
    (∀ (i : Nat) (e : String), i < (postHooks s).length →
      (∀ j < i, hookOutcome env path s.calls (postHooks s) j = none) →
      hookOutcome env path s.calls (postHooks s) i = some e →
      PostConfigRootfs env path s =
        .ok (some e)
          { s with calls := s.calls ++ ((postHooks s).take (i + 1)).map (hookCall path) }) ∧
    (∀ (command : String) (rest : List String), (∀ t ∈ command :: rest, ' ' ∉ t.data) →
      ∃ lead, hookCall path (joinTokens (command :: rest)) =
        .SpawnContainer ["arch-chroot", path, command, lead ++ spaced rest]) := by
  refine ⟨?_, ?_, ?_, ?_, ?_⟩
  · intro h
    rw [PreConfigRootfs_eq]
    exact runHooks_all env path _ s h
  · intro i e hi hbefore hfail
    rw [PreConfigRootfs_eq]
    exact runHooks_first_failure env path _ s i e hi hbefore hfail
  · intro h
    rw [PostConfigRootfs_eq]
    exact runHooks_all env path _ s h
  · intro i e hi hbefore hfail
    rw [PostConfigRootfs_eq]
    exact runHooks_first_failure env path _ s i e hi hbefore hfail
  · intro command rest h
    exact hookCall_joinTokens path command rest h

/-- C8 (amended), with `kubuntu` selected on top of `ubuntu`: in a world
where all succeeds the variant's pre-hook runs before the distribution's; in
a world where the variant's pre-hook fails it is the only one invoked; the
post-hook of the distribution runs likewise; and the hook `apt update` is
invoked as the command `apt` with one argument that ends in `update `. -/
theorem hooks_run_in_order_until_first_failure_witness :
    PreConfigRootfs quietEnv "/r" kubuntuState =
      .ok none
        { kubuntuState with
          calls := [.SpawnContainer ["arch-chroot", "/r", "echo", "echo kde "],
                    .SpawnContainer ["arch-chroot", "/r", "apt", "apt update "]] } ∧
    PreConfigRootfs (failingEnv (hookCall "/r" "echo kde")) "/r" kubuntuState =
      .ok (some "exit status 1")
        { kubuntuState with
          calls := [.SpawnContainer ["arch-chroot", "/r", "echo", "echo kde "]] } ∧
    PostConfigRootfs quietEnv "/r" kubuntuState =
      .ok none
        { kubuntuState with calls := [.SpawnContainer ["arch-chroot", "/r", "ldconfig", "ldconfig "]] } ∧
    PostConfigRootfs (failingEnv (hookCall "/r" "ldconfig")) "/r" kubuntuState =
      .ok (some "exit status 1")
        { kubuntuState with calls := [.SpawnContainer ["arch-chroot", "/r", "ldconfig", "ldconfig "]] } ∧
    (∃ lead, hookCall "/r" "apt update" =
      .SpawnContainer ["arch-chroot", "/r", "apt", lead ++ "update "]) :=
  ⟨(hooks_run_in_order_until_first_failure quietEnv "/r" kubuntuState).1 (by decide),
   (hooks_run_in_order_until_first_failure (failingEnv (hookCall "/r" "echo kde")) "/r"
      kubuntuState).2.1 0 "exit status 1" (by decide) (by decide) (by decide),
   (hooks_run_in_order_until_first_failure quietEnv "/r" kubuntuState).2.2.1 (by decide),
   (hooks_run_in_order_until_first_failure (failingEnv (hookCall "/r" "ldconfig")) "/r"
      kubuntuState).2.2.2.1 0 "exit status 1" (by decide) (by decide) (by decide),
   (hooks_run_in_order_until_first_failure quietEnv "/r" kubuntuState).2.2.2.2 "apt" ["update"]
      (by decide)⟩

/-- C9: when the mirror list of the requested architecture is not empty and
its first template does not contain `{VERSION}`, `SelectVersion` returns that
template with a nil error and leaves the state, the recorded calls included,
as it was: no listing is fetched and no selection is asked for. -/
theorem SelectVersion_plain_template (env : Env) (s : State) (mirror : String)
    (others : List String)
    (hlist : s.distribution.Architectures.lookup s.buildarch = some (mirror :: others))
    (htoken : ¬ "{VERSION}".data <:+: mirror.data) :
    SelectVersion env s = .ok (mirror, none) s := by
  have hc : Contains mirror "{VERSION}" = false := by
    rw [Contains, Bool.eq_false_iff, Ne, containsChars_iff]
    exact htoken
  simp [SelectVersion, hlist, hc]

/-- C9, at `ubuntu` of `exampleCatalog` on `aarch64`. -/
theorem SelectVersion_plain_template_witness :
    SelectVersion quietEnv ubuntuState = .ok ("http://mirror/ubuntu.tar.gz", none) ubuntuState :=
  SelectVersion_plain_template quietEnv ubuntuState "http://mirror/ubuntu.tar.gz" [] (by decide)
    (by decide)

/-- C10 (the claim as stated fails): on `linkedTree`, staged at
`/root/linux/ubuntu`, the walk calls `os.Chmod` on the symbolic links
`etc/mtab` and `lib64`, which lie outside `proc`; `os.Chmod` follows them, so
the modes set to `0755` include that of `proc/self/mounts`, a file inside the
subtree of `proc`, and that of `lib`, a directory.  And on a directory named
`proc` that `ReadDir` could not read the callback returns the error, not
`SkipDir`. -/
theorem Walk_changes_modes_through_links :
    modeChanges (entriesOf "/root/linux/ubuntu" false linkedTree)
        (Walk linkedEnv "/root/linux/ubuntu" walkFn ubuntuState).state.calls =
      [("/root/linux/ubuntu/proc/self/mounts", 0o755),
       ("/root/linux/ubuntu/lib/libc.so", 0o755),
       ("/root/linux/ubuntu/lib", 0o755)] ∧
    ({ path := "/root/linux/ubuntu/proc/self/mounts", kind := .file, shielded := true } : Entry) ∈
      entriesOf "/root/linux/ubuntu" false linkedTree ∧
    ({ path := "/root/linux/ubuntu/lib", kind := .dir, shielded := false } : Entry) ∈
      entriesOf "/root/linux/ubuntu" false linkedTree ∧
    walkFn "/root/linux/ubuntu/proc" (some { Name := "proc", IsDir := true })
        (some "permission denied") ubuntuState =
      .ok (some (.other "permission denied")) ubuntuState ∧
    Walk lockedEnv "/root/linux/ubuntu" walkFn ubuntuState =
      .ok (some "permission denied")
        { ubuntuState with calls := [.Chmod "/root/linux/ubuntu/etc/passwd" 0o755] } :=
  ⟨by decide, by decide, by decide, rfl, rfl⟩

/-- C10 (amended): for a staged tree that `Lstat` finds at the root, with
`es` its entries.  (1) When `Lstat` and `ReadDir` succeed on everything the
walk reaches, the permission walk of `Factory` returns nil and makes exactly
these calls, in walk order: `os.Chmod(path, 0755)` once for every entry that
is no directory and lies in no subtree of a directory named `dev`, `proc` or
`sys`, whatever the depth; so `os.Chmod` is never called on the path of a
directory or of an entry inside such a subtree.  (2) When the walk reaches
an entry on which `Lstat` or `ReadDir` fails, it returns an error after an
initial part of those calls.  (3) The callback answers `SkipDir`, without
any call, on every directory of these names that was read without error,
and (4) answers the error it is handed, whatever the entry is called.
(5) When the paths of the entries are distinct, the modes that the calls of
(1) set to `0755` are: the entry's own for a file, the target's for a
symbolic link (nothing for a dangling one). -/
theorem Walk_skips_pseudo_directories (env : Env) (root : String) (t : Node) (s : State)
    (hroot : env.Lstat s.calls root = .ok t) :
    (reachableReadable t = true →
      Walk env root walkFn s =
        .ok none { s with calls := s.calls ++ chmodCalls (entriesOf root false t) }) ∧
    (reachableReadable t = false →
      ∃ (e : String) (made : List Call),
        Walk env root walkFn s = .ok (some e) { s with calls := s.calls ++ made } ∧
        made <+: chmodCalls (entriesOf root false t)) ∧
    (∀ (file name : String) (s1 : State), name ∈ pseudoDirs →
      walkFn file (some { Name := name, IsDir := true }) none s1 = .ok (some .SkipDir) s1) ∧
    (∀ (file : String) (info : Option FileInfo) (e : String) (s1 : State),
      walkFn file info (some e) s1 = .ok (some (.other e)) s1) ∧
    (((entriesOf root false t).map (·.path)).Nodup →
      modeChanges (entriesOf root false t) (chmodCalls (entriesOf root false t)) =
        ((entriesOf root false t).filter Entry.chmodable).filterMap fun e =>
          e.inode.map fun target => (target, 0o755)) := by
  refine ⟨?_, ?_, ?_, ?_, ?_⟩
  · intro hr
    simp only [Walk, M.bind_run, getState_run, hroot, walk_readable t hr]
    split <;> rfl
  · intro hr
    obtain ⟨e, made, hw, hpre⟩ := walk_unreadable t hr root s
    exact ⟨e, made, by simp [Walk, hroot, hw], hpre⟩
  · intro file name s1 hname
    rw [walkFn_dir]
    simp [hname]
  · intro file info e s1
    exact walkFn_err file info e s1
  · intro hnodup
    exact modeChanges_chmodCalls _ hnodup

/-- C10 (amended), at `/root/linux/ubuntu`: on `exampleTree` only
`etc/passwd` and `usr/bin/sh` are handed to `os.Chmod`, while `dev`, `proc`
and the nested `usr/sys` are skipped; on `lockedTree` the walk ends with an
error; the callback answers `SkipDir` on a `sys` that was read and the error
on a `proc` that was not; on `linkedTree` the modes set are those of the
file `lib/libc.so` and of the targets of the two links. -/
theorem Walk_skips_pseudo_directories_witness :
    Walk treeEnv "/root/linux/ubuntu" walkFn ubuntuState =
      .ok none
        { ubuntuState with
          calls := [.Chmod "/root/linux/ubuntu/etc/passwd" 0o755,
                    .Chmod "/root/linux/ubuntu/usr/bin/sh" 0o755] } ∧
    (∃ (e : String) (made : List Call),
      Walk lockedEnv "/root/linux/ubuntu" walkFn ubuntuState =
        .ok (some e) { ubuntuState with calls := ubuntuState.calls ++ made } ∧
      made <+: chmodCalls (entriesOf "/root/linux/ubuntu" false lockedTree)) ∧
    walkFn "/root/linux/ubuntu/usr/sys" (some { Name := "sys", IsDir := true }) none ubuntuState =
      .ok (some .SkipDir) ubuntuState ∧
    walkFn "/root/linux/ubuntu/proc" (some { Name := "proc", IsDir := true })
        (some "permission denied") ubuntuState =
      .ok (some (.other "permission denied")) ubuntuState ∧
    modeChanges (entriesOf "/root/linux/ubuntu" false linkedTree)
        (chmodCalls (entriesOf "/root/linux/ubuntu" false linkedTree)) =
      [("/root/linux/ubuntu/proc/self/mounts", 0o755),
       ("/root/linux/ubuntu/lib/libc.so", 0o755),
       ("/root/linux/ubuntu/lib", 0o755)] :=
  ⟨(Walk_skips_pseudo_directories treeEnv "/root/linux/ubuntu" exampleTree ubuntuState rfl).1
     (by decide),
   (Walk_skips_pseudo_directories lockedEnv "/root/linux/ubuntu" lockedTree ubuntuState rfl).2.1
     (by decide),
   (Walk_skips_pseudo_directories treeEnv "/root/linux/ubuntu" exampleTree ubuntuState rfl).2.2.1
     "/root/linux/ubuntu/usr/sys" "sys" ubuntuState (by decide),
   (Walk_skips_pseudo_directories treeEnv "/root/linux/ubuntu" exampleTree ubuntuState
     rfl).2.2.2.1 "/root/linux/ubuntu/proc" (some { Name := "proc", IsDir := true })
     "permission denied" ubuntuState,
   (Walk_skips_pseudo_directories linkedEnv "/root/linux/ubuntu" linkedTree ubuntuState
     rfl).2.2.2.2 (by decide)⟩

end JetFactory
